import Mathlib

/-!
Verification of the spinner compiler/runner pipeline of
`alive_progress/animations/spinner_compiler.py`.

The source works on tuples of tuples of frames, where a frame is a tuple of
"cells" produced by the external cell model (`..utils.cells`).  We embed a cell
as its text (a list of characters), a frame as a list of cells and the frame
table (`spec.data`) as a list of cycles, each a list of frames.  The external
cell-model functions (`fix_cells`, `strip_marks`, `to_cells`, `join_cells`) are
out of scope per the design document and are taken as parameters; the width of
a frame is its number of cells (`len(frame)` in the source).
-/

/-- Text as Python sees it: a list of characters. -/
abbrev PyStr := List Char

/-- A cell of the external cell model: an atomic renderable unit, embedded as
its text. -/
abbrev Cell := List Char

/-- A frame: an ordered sequence of cells.  `len(frame)` in the source is its
number of cells. -/
abbrev Frame := List Cell

/-- The frame table `spec.data`: cycles of frames. -/
abbrev Data := List (List Frame)

/-- Python truthiness for an optional integer argument: `x or d` yields `d`
when `x` is `None` or `0`, and `x` otherwise. -/
def pyOrI (x : Option Int) (d : Int) : Int :=
  match x with
  | none => d
  | some v => if v = 0 then d else v

/-- Core of Python's `str.replace` for a non-empty pattern: scan left to right,
replacing each non-overlapping occurrence.  Structural recursion on a fuel
argument (instantiated with the length of the scanned string, which bounds the
number of scanning steps). -/
def py_replace_core (old new : List Char) : Nat → List Char → List Char
  | 0, s => s
  | _ + 1, [] => []
  | fuel + 1, c :: t =>
    if old.isPrefixOf (c :: t) then new ++ py_replace_core old new fuel ((c :: t).drop old.length)
    else c :: py_replace_core old new fuel t

/-- Python's `str.replace(old, new)`: replaces every non-overlapping occurrence
of `old` by `new`, left to right; an empty `old` inserts `new` at every
boundary (so `"abc".replace("", "x") == "xaxbxcx"`).  Lean's own
`String.replace` differs on the empty pattern, hence this executable model of
the CPython semantics. -/
def py_str_replace (s old new : List Char) : List Char :=
  match old with
  | [] => new ++ s.foldr (fun c acc => c :: (new ++ acc)) []
  | _ :: _ => py_replace_core old new s.length s

/-- The `replace` pre-compiler command (source lines 102-114): every frame is
rendered to text with `join_cells`, substring-replaced, and split back into
cells with `to_cells`; one output frame per input frame. -/
def replace (to_cells : PyStr → Frame) (join_cells : Frame → PyStr)
    (old new : PyStr) (data : Data) : Data :=
  data.map (fun cycle => cycle.map (fun frame => to_cells (py_str_replace (join_cells frame) old new)))

/-- The `pause` pre-compiler command (source lines 117-133):
`n_edges, n_middle = max(1, n_edges or 6), max(1, n_middle or 1)`, then within
each cycle frame `i` is repeated `n_edges` times when `i in (0, length - 1)`
and `n_middle` times otherwise. -/
def pause (n_edges n_middle : Option Int) (data : List (List α)) : List (List α) :=
  let e := (max 1 (pyOrI n_edges 6)).toNat
  let m := (max 1 (pyOrI n_middle 1)).toNat
  data.map (fun cycle =>
    (cycle.enum.map (fun p =>
      List.replicate (if p.1 = 0 ∨ p.1 = cycle.length - 1 then e else m) p.2)).flatten)

/-- Grouping of a flat sequence into consecutive chunks of `n` elements, the
final shorter chunk kept; models `tuple(iter(lambda: tuple(islice(flatten,
num_frames)), ()))` in the source: with `n = 0` the first `islice` chunk is the
empty sentinel, so the result is empty. -/
def chunkify (n : Nat) (xs : List α) : List (List α) :=
  match n, xs with
  | 0, _ => []
  | _ + 1, [] => []
  | n + 1, x :: xs => (x :: xs).take (n + 1) :: chunkify (n + 1) (xs.drop n)
termination_by xs.length
decreasing_by simp only [List.length_drop, List.length_cons]; omega

/-- The `reshape` pre-compiler command (source lines 136-146): flatten all
frames of all cycles in order and regroup into cycles of `num_frames`
consecutive frames. -/
def reshape (num_frames : Nat) (data : List (List α)) : List (List α) :=
  chunkify num_frames data.flatten

/-- Length of the shortest member, the number of tuples produced by Python's
`zip(*ls)` (zero when `ls` is empty, since `zip()` yields nothing). -/
def minLen (ls : List (List α)) : Nat :=
  match ls with
  | [] => 0
  | c :: rest => rest.foldl (fun acc l => min acc l.length) c.length

/-- Python's `zip(*ls)`: the `i`-th output tuple collects the `i`-th element of
every member, for `i` below the length of the shortest member. -/
def pyZip (ls : List (List α)) : List (List α) :=
  (List.range (minLen ls)).map (fun i => ls.filterMap (fun l => l[i]?))

/-- The `transpose` pre-compiler command (source lines 149-153):
`tuple(tuple(cycle) for cycle in zip(*spec.data))`. -/
def transpose (data : List (List α)) : List (List α) :=
  pyZip data

/-- A scheduled pre-tagged command with its bound arguments, for the pipeline
view.  These are the commands registered through `pre_compiler_command =
extra_command(False)` (source line 99). -/
inductive PreCmd where
  | replaceC (old new : PyStr)
  | pauseC (n_edges n_middle : Option Int)
  | reshapeC (num_frames : Nat)
  | transposeC
deriving DecidableEq, Repr

/-- Interpretation of one scheduled pre-tagged command on the frame table. -/
def run_pre_command (to_cells : PyStr → Frame) (join_cells : Frame → PyStr) :
    PreCmd → Data → Data
  | .replaceC old new => replace to_cells join_cells old new
  | .pauseC ne nm => pause ne nm
  | .reshapeC k => reshape k
  | .transposeC => transpose

/-- `apply_extra_commands` (source lines 168-170) specialised to the
pre-tagged commands: apply each scheduled command in order. -/
def apply_pre_commands (to_cells : PyStr → Frame) (join_cells : Frame → PyStr)
    (cmds : List PreCmd) (data : Data) : Data :=
  cmds.foldl (fun d c => run_pre_command to_cells join_cells c d) data

/-- Errors raised by the pipeline, mirroring the Python exceptions:
`AttributeError` (reading a missing namespace attribute), `IndexError`
(out-of-range tuple indexing), the `AssertionError` of the width check
(carrying the rendered frame dump and the assertion message), `NameError`
(an undefined global name) and `TypeError` (a signature binding failure). -/
inductive PyError where
  | attributeError
  | indexError
  | specMismatch (dump : String) (msg : String)
  | nameError
  | typeError
deriving DecidableEq, Repr

/-- The in-progress namespace state touched by the `randomize` command during
compilation: the `randomize` flag and the `cycles` attribute, which does not
exist (`none`) until something assigns it. -/
structure RState where
  randomize : Bool
  cyclesNS : Option Int
deriving DecidableEq, Repr

/-- The `randomize` command (source lines 156-165):
`spec.__dict__.update(randomize=True, cycles=max(0, cycles or 0) or spec.cycles)`.
When `max(0, cycles or 0)` is falsy, Python evaluates `spec.cycles`, which
raises `AttributeError` if the attribute has not been set yet; the `update`
then never executes. -/
def randomize_cmd (cycles : Option Int) (s : RState) : Except PyError RState :=
  let v : Int := max 0 (pyOrI cycles 0)
  if v = 0 then
    match s.cyclesNS with
    | none => .error .attributeError
    | some cy => .ok { randomize := true, cyclesNS := some cy }
  else .ok { randomize := true, cyclesNS := some v }

/-- Apply the scheduled post-tagged commands in order.  In this code the only
command registered through `post_compiler_command = extra_command(True)`
(source line 99) is `randomize`, so a scheduled record is just its `cycles`
argument. -/
def apply_randomize_commands : List (Option Int) → RState → Except PyError RState
  | [], s => .ok s
  | c :: rest, s =>
    match randomize_cmd c s with
    | .ok s2 => apply_randomize_commands rest s2
    | .error e => .error e

/-- Lowercase hex rendition of a natural number, as `hex(n)` without the `0x`
marker. -/
def hexStr (n : Nat) : String :=
  String.mk (Nat.toDigits 16 n)

/-- `format_codepoints` (source lines 291-294) with the external ANSI color
wrappers taken as identity: the total fragment length and the per-cell
codepoints in hex. -/
def format_codepoints (frame : Frame) : String :=
  let codes := String.intercalate "|" (frame.map (fun g =>
    String.intercalate " " (g.map (fun c => hexStr c.toNat))))
  " -> " ++ toString (frame.map List.length).sum ++ ":[" ++ codes ++ "]"

/-- `render_frames` (source lines 297-309) with the external ANSI color and
alignment helpers taken as identity: a human-readable dump of every frame of
every cycle, with per-cycle and whole-sequence frame indices and, on request,
the codepoint dump. -/
def render_frames (strip_marks : Frame → Frame) (show_codepoints : Bool) (data : Data) : String :=
  let pieces := data.enum.map (fun p =>
    let cycle := (p.2).map strip_marks
    let offset := ((data.take p.1).map List.length).sum
    "cycle " ++ toString (p.1 + 1) ++ "\n" ++
      String.intercalate "\n" (cycle.enum.map (fun q =>
        toString (q.1 + 1) ++ " |" ++ String.mk q.2.flatten ++ "| " ++ toString (offset + q.1 + 1) ++
          (if show_codepoints then format_codepoints q.2 else ""))))
  "\nFrame data\n" ++ String.intercalate "\n\n" pieces

/-- The compiled spec (source lines 187-195): the frame table plus the derived
metadata.  The metadata update at line 194 assigns `cycles=len(spec.data)`
unconditionally, overwriting anything the `randomize` command wrote. -/
structure Spec where
  data : Data
  natural : Nat
  randomize : Bool
  cycles : Nat
  length : Nat
  frames : List Nat
  total_frames : Nat
deriving DecidableEq, Repr

/-- Python's `max` over a list (`None` for the empty generator, which raises). -/
def list_max (l : List Nat) : Option Nat :=
  match l with
  | [] => none
  | a :: t => some (t.foldl max a)

/-- Python's `min` over a list. -/
def list_min (l : List Nat) : Option Nat :=
  match l with
  | [] => none
  | a :: t => some (t.foldl min a)

/-- `spinner_compiler` (source lines 173-200).  The frames of the generator
are normalized with `fix_cells`; then `apply_extra_commands(spec,
extra_commands)` runs with the commands the dispatcher passed, which at source
line 37 is `extra_commands.get(True, ())` — the True-tagged list, i.e. only
`randomize` in this code.  Then the metadata is derived, where
`length=len(spec.data[0][0])` raises `IndexError` when there is no first frame,
and finally the uniform-width assert compares the maximum and minimum frame
cell counts, its message rendering the full frame dump. -/
def spinner_compiler (fix_cells strip_marks : Frame → Frame)
    (gen : Data) (natural : Nat) (posts : List (Option Int)) : Except PyError Spec :=
  let data : Data := gen.map (fun cycle => cycle.map fix_cells)
  match apply_randomize_commands posts { randomize := false, cyclesNS := none } with
  | .error e => .error e
  | .ok st =>
    let frames := data.map List.length
    match data with
    | [] => .error .indexError
    | [] :: _ => .error .indexError
    | (f0 :: _) :: _ =>
      let ws := data.flatten.map List.length
      if list_max ws = list_min ws then
        .ok { data := data, natural := natural, randomize := st.randomize,
              cycles := data.length, length := f0.length,
              frames := frames, total_frames := frames.sum }
      else
        .error (.specMismatch (render_frames strip_marks true data)
          "Different cell lengths detected in frame data.")

/-- A constructed spinner runner: it owns its spec (source lines 227-242). -/
structure Runner where
  spec : Spec
deriving DecidableEq, Repr

/-- `spinner_runner_factory` (source lines 203-242).  The dispatcher passes it
`extra_commands.get(False, ())` — the False-tagged list, i.e. the four data
commands in this code.  Line 241 runs `apply_extra_commands(spec,
extra_commands or ((sequential, (), {}),))`: when no False-tagged command was
scheduled the default tuple references the global name `sequential`, which is
defined nowhere in the module, raising `NameError`; otherwise the scheduled
commands mutate `spec.data` now, after the compiler's width check, with the
derived metadata left stale. -/
def spinner_runner_factory (to_cells : PyStr → Frame) (join_cells : Frame → PyStr)
    (spec : Spec) (pres : List PreCmd) : Except PyError Runner :=
  match pres with
  | [] => .error .nameError
  | _ :: _ => .ok ⟨{ spec with data := apply_pre_commands to_cells join_cells pres spec.data }⟩

/-- `compiler_dispatcher` (source lines 19-38): compile the generator output,
then wrap the spec into a runner; the True-tagged commands go to the compiler
and the False-tagged commands to the runner factory. -/
def compiler_dispatcher (fix_cells strip_marks : Frame → Frame)
    (to_cells : PyStr → Frame) (join_cells : Frame → PyStr)
    (natural : Nat) (gen : Data) (pres : List PreCmd) (posts : List (Option Int)) :
    Except PyError Runner :=
  match spinner_compiler fix_cells strip_marks gen natural posts with
  | .error e => .error e
  | .ok spec => spinner_runner_factory to_cells join_cells spec pres

/-- One pull from the `ordered_cycle_data` generator (source lines 219-221,
`while True: yield from spec.data`): the state is the remaining suffix of the
current pass; when it is exhausted a new pass over `data` starts.  With empty
`data` the generator loops forever yielding nothing, modelled as `none`. -/
def ordered_next (data : List α) (s : List α) : Option (α × List α) :=
  match s with
  | a :: rest => some (a, rest)
  | [] =>
    match data with
    | a :: rest => some (a, rest)
    | [] => none

/-- The value and state of the `ordered_cycle_data` generator after `n + 1`
pulls, starting from the initial (empty) state. -/
def ordered_run (data : List α) : Nat → Option (α × List α)
  | 0 => ordered_next data []
  | n + 1 => (ordered_run data n).bind (fun p => ordered_next data p.2)

/-- One pull from the `random_cycle_data` generator (source lines 223-225,
`yield random.choice(spec.data)`): `random.choice(seq)` picks
`seq[randbelow(len(seq))]`; the entropy source is modelled as a stream `r` of
naturals, call `n` consuming `r n`.  On empty `data`, `random.choice` raises
`IndexError`, modelled as `none`. -/
def random_cycle_data (data : List α) (r : Nat → Nat) (n : Nat) : Option α :=
  data[r n % data.length]?

/-- The cycle yielded by the `n`-th invocation of a runner: `cycle_gen` is
selected once from `spec.randomize` (source line 239) and each call of
`spinner_runner` yields the frames of `next(cycle_gen)` (source line 232). -/
def runner_invoke (rn : Runner) (r : Nat → Nat) (n : Nat) : Option (List Frame) :=
  if rn.spec.randomize then random_cycle_data rn.spec.data r n
  else (ordered_run rn.spec.data n).map Prod.fst

/-- The five commands exposed on the compiler controller, as named in
`EXTRA_COMMANDS` (source lines 98-165). -/
inductive CmdName where
  | replaceC
  | pauseC
  | reshapeC
  | transposeC
  | randomizeC
deriving DecidableEq, Repr

/-- The declared parameters of each command after its implicit leading `spec`
parameter, with a flag for "has a default".  These are the signatures checked
by `signature(command).bind(1, *args, **kwargs)` (source line 52). -/
def cmd_sig : CmdName → List (String × Bool)
  | .replaceC => [("old", false), ("new", false)]
  | .pauseC => [("n_edges", true), ("n_middle", true)]
  | .reshapeC => [("num_frames", false)]
  | .transposeC => []
  | .randomizeC => [("cycles", true)]

/-- The registration tag of each command (source lines 99-165):
`pre_compiler_command = extra_command(False)` tags the four data commands
`False` and `post_compiler_command = extra_command(True)` tags `randomize`
`True`. -/
def cmd_tag : CmdName → Bool
  | .randomizeC => true
  | _ => false

/-- Python positional/keyword binding of `nargs` positional arguments and the
keyword names `kwargs` against the declared parameters `ps` (the implicit
leading `spec` parameter already consumed): every positional argument must
have a parameter, every keyword must name a parameter not already filled
positionally, and every parameter without a default must be filled. -/
def bind_ok (ps : List (String × Bool)) (nargs : Nat) (kwargs : List String) : Bool :=
  decide (nargs ≤ ps.length)
    && kwargs.all (fun k => (ps.drop nargs).any (fun p => p.1 == k))
    && (ps.drop nargs).all (fun p => p.2 || kwargs.contains p.1)

/-- The builder state: the scheduled command records, keyed by their
registration tag (`extra_commands` in the source, a dict from the tag to a
tuple of `(command, args, kwargs)` records).  `pre_scheduled` is the
False-tagged list and `post_scheduled` the True-tagged list. -/
structure Controller where
  pre_scheduled : List (CmdName × Nat × List String)
  post_scheduled : List (CmdName × Nat × List String)
deriving DecidableEq, Repr

/-- `schedule_command` (source lines 50-57): `inner_schedule` first binds the
arguments against the command's signature — a mismatch raises `TypeError`
right there — then appends the record to the list keyed by
`EXTRA_COMMANDS[command]` and returns a new controller. -/
def schedule_command (ctrl : Controller) (c : CmdName) (nargs : Nat) (kwargs : List String) :
    Except PyError Controller :=
  if bind_ok (cmd_sig c) nargs kwargs then
    .ok (if cmd_tag c then
          { ctrl with post_scheduled := ctrl.post_scheduled ++ [(c, nargs, kwargs)] }
         else
          { ctrl with pre_scheduled := ctrl.pre_scheduled ++ [(c, nargs, kwargs)] })
  else .error .typeError

/-- The repeat count actually claimed by the design document for `pause`:
the default applies only when the argument is absent, and the supplied value
is floored to a minimum of 1. -/
def floor_repeat (x : Option Int) (d : Int) : Int :=
  max 1 (x.getD d)

/-- Interior expansion of a cycle as the design document words it: every
interior frame `m` times, the last frame `e` times. -/
def pause_mid (e m : Nat) : List α → List α
  | [] => []
  | [l] => List.replicate e l
  | x :: y :: ys => List.replicate m x ++ pause_mid e m (y :: ys)

/-- One cycle of `pause` as the design document words it: first and last frame
`e` times each, interior frames `m` times, a sole frame counting as both
edges. -/
def pause_cycle_spec (e m : Nat) : List α → List α
  | [] => []
  | [f] => List.replicate e f
  | f :: g :: gs => List.replicate e f ++ pause_mid e m (g :: gs)

/-- The `pause` semantics claimed by the design document (both arguments
floored to a minimum of 1, defaults 6 and 1): the claimed reading differs from
the code on a supplied `0`, which the code's `n or default` treats as the
default. -/
def pause_claimed (n_edges n_middle : Option Int) (data : List (List α)) : List (List α) :=
  let e := (floor_repeat n_edges 6).toNat
  let m := (floor_repeat n_middle 1).toNat
  data.map (pause_cycle_spec e m)

/-- The code's `pause`, rephrased per the amended claim: a supplied `0` (like
an absent argument) selects the default, negative values are floored to 1, and
each cycle expands first/interior/last frames as the design document words
it. -/
def pause_amended (n_edges n_middle : Option Int) (data : List (List α)) : List (List α) :=
  let e := (max 1 (pyOrI n_edges 6)).toNat
  let m := (max 1 (pyOrI n_middle 1)).toNat
  data.map (pause_cycle_spec e m)

/-! Helper lemmas. -/

theorem filterMap_length_all_some {β γ : Type _} (xs : List β) (g : β → Option γ)
    (h : ∀ x ∈ xs, (g x).isSome) : (xs.filterMap g).length = xs.length := by
  induction xs with
  | nil => rfl
  | cons x t ih =>
    obtain ⟨a, ha⟩ := Option.isSome_iff_exists.mp (h x (by simp))
    simp [List.filterMap_cons, ha, ih (fun y hy => h y (by simp [hy]))]

theorem filterMap_getElem?_all_some {β γ : Type _} (xs : List β) (g : β → Option γ)
    (h : ∀ x ∈ xs, (g x).isSome) (j : Nat) :
    (xs.filterMap g)[j]? = xs[j]?.bind g := by
  induction xs generalizing j with
  | nil => simp
  | cons x t ih =>
    obtain ⟨a, ha⟩ := Option.isSome_iff_exists.mp (h x (by simp))
    cases j with
    | zero => simp [List.filterMap_cons, ha]
    | succ j => simp [List.filterMap_cons, ha, ih (fun y hy => h y (by simp [hy])) j]

theorem filterMap_congr_mem {β γ : Type _} (xs : List β) (f g : β → Option γ)
    (h : ∀ x ∈ xs, f x = g x) : xs.filterMap f = xs.filterMap g := by
  induction xs with
  | nil => rfl
  | cons x t ih =>
    simp only [List.filterMap_cons, h x (by simp), ih (fun y hy => h y (by simp [hy]))]

theorem foldl_min_len_uniform {α : Type _} (r : Nat) :
    ∀ (rest : List (List α)) (acc : Nat), acc = r → (∀ l ∈ rest, l.length = r) →
      rest.foldl (fun acc l => min acc l.length) acc = r := by
  intro rest
  induction rest with
  | nil => intro acc h _; exact h
  | cons l t ih =>
    intro acc h hl
    simp only [List.foldl_cons]
    exact ih _ (by rw [h, hl l (by simp)]; exact min_self r) (fun y hy => hl y (by simp [hy]))

theorem minLen_uniform {α : Type _} (ls : List (List α)) (r : Nat) (hne : ls ≠ [])
    (h : ∀ l ∈ ls, l.length = r) : minLen ls = r := by
  cases ls with
  | nil => exact absurd rfl hne
  | cons c rest =>
    simp only [minLen]
    exact foldl_min_len_uniform r rest c.length (h c (by simp)) (fun y hy => h y (by simp [hy]))

theorem range_filterMap_getElem? {α : Type _} (l : List α) :
    (List.range l.length).filterMap (fun i => l[i]?) = l := by
  have hall : ∀ i ∈ List.range l.length, (l[i]?).isSome := by
    intro i hi
    have := List.mem_range.mp hi
    simp [List.getElem?_eq_getElem this]
  apply List.ext_getElem?
  intro m
  by_cases hm : m < l.length
  · rw [filterMap_getElem?_all_some _ _ hall m, List.getElem?_range hm]
    simp
  · have hlen : ((List.range l.length).filterMap (fun i => l[i]?)).length = l.length := by
      rw [filterMap_length_all_some _ _ hall]; simp
    rw [List.getElem?_eq_none (by omega), List.getElem?_eq_none (by omega)]

theorem chunkify_flatten_aux {α : Type _} (n : Nat) :
    ∀ (L : Nat) (xs : List α), xs.length ≤ L → (chunkify (n + 1) xs).flatten = xs := by
  intro L
  induction L with
  | zero =>
    intro xs h
    have : xs = [] := List.eq_nil_of_length_eq_zero (by omega)
    subst this
    simp [chunkify]
  | succ L ih =>
    intro xs h
    cases xs with
    | nil => simp [chunkify]
    | cons x t =>
      simp only [chunkify, List.flatten_cons]
      rw [ih (t.drop n) (by simp [List.length_drop]; simp [List.length_cons] at h; omega)]
      rw [← List.drop_succ_cons (n := n) (a := x) (l := t)]
      exact List.take_append_drop _ _

theorem chunkify_flatten {α : Type _} (n : Nat) (xs : List α) :
    (chunkify (n + 1) xs).flatten = xs :=
  chunkify_flatten_aux n xs.length xs le_rfl

theorem chunkify_sizes {α : Type _} (n : Nat) :
    ∀ (L : Nat) (xs : List α), xs.length ≤ L →
      ∀ c ∈ chunkify (n + 1) xs, c ≠ [] ∧ c.length ≤ n + 1 := by
  intro L
  induction L with
  | zero =>
    intro xs h
    have : xs = [] := List.eq_nil_of_length_eq_zero (by omega)
    subst this
    simp [chunkify]
  | succ L ih =>
    intro xs h c hc
    cases xs with
    | nil => simp [chunkify] at hc
    | cons x t =>
      simp only [chunkify, List.mem_cons] at hc
      rcases hc with rfl | hc
      · constructor
        · simp [List.take_succ_cons]
        · simp [List.length_take]
      · exact ih (t.drop n) (by simp [List.length_drop]; simp [List.length_cons] at h; omega) c hc

theorem chunkify_cons_ne_nil {α : Type _} (n : Nat) (x : α) (t : List α) :
    chunkify (n + 1) (x :: t) ≠ [] := by
  simp [chunkify]

theorem chunkify_dropLast {α : Type _} (n : Nat) :
    ∀ (L : Nat) (xs : List α), xs.length ≤ L →
      ∀ c ∈ (chunkify (n + 1) xs).dropLast, c.length = n + 1 := by
  intro L
  induction L with
  | zero =>
    intro xs h
    have : xs = [] := List.eq_nil_of_length_eq_zero (by omega)
    subst this
    simp [chunkify]
  | succ L ih =>
    intro xs h c hc
    cases xs with
    | nil => simp [chunkify] at hc
    | cons x t =>
      simp only [chunkify] at hc
      rcases hrest : chunkify (n + 1) (t.drop n) with _ | ⟨r, rs⟩
      · rw [hrest] at hc
        simp at hc
      · rw [hrest, List.dropLast_cons₂, List.mem_cons] at hc
        rcases hc with rfl | hc
        · have hdrop : t.drop n ≠ [] := by
            intro hnil
            rw [hnil] at hrest
            simp [chunkify] at hrest
          have hn : n < t.length := by
            by_contra hle
            exact hdrop (List.drop_eq_nil_iff.mpr (by omega))
          simp [List.length_take, List.length_cons]
          omega
        · have := ih (t.drop n) (by simp [List.length_drop]; simp [List.length_cons] at h; omega)
          rw [hrest] at this
          exact this c hc

theorem pause_mid_eq {α : Type _} (e m : Nat) (L : Nat) :
    ∀ (xs : List α) (x : α) (s : Nat), 0 < s → s + (x :: xs).length = L →
      ((List.enumFrom s (x :: xs)).map (fun p =>
        List.replicate (if p.1 = 0 ∨ p.1 = L - 1 then e else m) p.2)).flatten
        = pause_mid e m (x :: xs) := by
  intro xs
  induction xs with
  | nil =>
    intro x s hs hL
    simp only [List.length_cons, List.length_nil] at hL
    rw [List.enumFrom_cons]
    simp only [List.map_cons, List.map_nil, List.flatten_cons, List.flatten_nil, List.append_nil]
    rw [if_pos (Or.inr (by omega))]
    simp [pause_mid]
  | cons y ys ih =>
    intro x s hs hL
    simp only [List.length_cons] at hL
    rw [List.enumFrom_cons]
    simp only [List.map_cons, List.flatten_cons]
    rw [if_neg (by omega)]
    rw [ih y (s + 1) (by omega) (by simp [List.length_cons]; omega)]
    simp [pause_mid]

theorem pause_cycle_eq {α : Type _} (e m : Nat) (cycle : List α) :
    (cycle.enum.map (fun p =>
      List.replicate (if p.1 = 0 ∨ p.1 = cycle.length - 1 then e else m) p.2)).flatten
      = pause_cycle_spec e m cycle := by
  cases cycle with
  | nil => simp [pause_cycle_spec]
  | cons f t =>
    cases t with
    | nil =>
      simp [List.enum_cons, pause_cycle_spec]
    | cons g gs =>
      rw [List.enum_cons]
      simp only [List.map_cons, List.flatten_cons]
      rw [if_pos (Or.inl trivial)]
      rw [pause_mid_eq e m ((f :: g :: gs).length) gs g 1 (by omega)
        (by simp [List.length_cons]; omega)]
      simp [pause_cycle_spec]

/-! Claim theorems for the pure data commands. -/

/-- C10: for every frame table and every pair of strings, the `replace`
pre-command preserves the number of cycles and the number of frames of each
cycle exactly — it maps each frame to exactly one frame, so only cell
contents can change. -/
theorem C10_replace_shape (to_cells : PyStr → Frame) (join_cells : Frame → PyStr)
    (old new : PyStr) (data : Data) :
    (replace to_cells join_cells old new data).length = data.length
    ∧ (replace to_cells join_cells old new data).map List.length = data.map List.length := by
  constructor
  · simp [replace]
  · simp [replace]

/-- C5 counterexample: the claim says a supplied `edgeRepeat` is floored to a
minimum of 1, so `pause(0, ...)` should repeat the sole frame of a
single-frame cycle once; the code's `n_edges or 6` treats the supplied `0` as
the default `6` and repeats it six times. -/
theorem C5_pause_counterexample :
    pause (some 0) none [[(0 : Nat)]] = [[0, 0, 0, 0, 0, 0]]
    ∧ pause_claimed (some 0) none [[(0 : Nat)]] = [[0]]
    ∧ pause (some 0) none [[(0 : Nat)]] ≠ pause_claimed (some 0) none [[(0 : Nat)]] :=
  ⟨by decide, by decide, by decide⟩

/-- C5 (amended): `pause` treats a supplied `0` (like an absent argument) as
selecting the default (6 for the edges, 1 for the middle), floors negative
values to 1, and then repeats the first and last frame of each cycle
`edgeRepeat` times and every interior frame `middleRepeat` times, preserving
relative order, a sole frame counting as both edges. -/
theorem C5_pause_amended_eq {α : Type _} (n_edges n_middle : Option Int)
    (data : List (List α)) : pause n_edges n_middle data = pause_amended n_edges n_middle data := by
  simp only [pause, pause_amended]
  exact List.map_congr_left (fun c _ => pause_cycle_eq _ _ c)

/-- C4: for every frame table and every positive `groupSize`, `reshape`
produces the flattened original frames in cycle-then-frame order regrouped
into consecutive groups: total frame count is conserved, every group except
possibly the last has exactly `groupSize` frames, and a final shorter
non-empty group is kept. -/
theorem C4_reshape_conservation {α : Type _} (k : Nat) (hk : 0 < k) (data : List (List α)) :
    (reshape k data).flatten = data.flatten
    ∧ ((reshape k data).map List.length).sum = (data.map List.length).sum
    ∧ (∀ c ∈ reshape k data, c ≠ [] ∧ c.length ≤ k)
    ∧ (∀ c ∈ (reshape k data).dropLast, c.length = k) := by
  obtain ⟨n, rfl⟩ : ∃ n, k = n + 1 := ⟨k - 1, by omega⟩
  refine ⟨?_, ?_, ?_, ?_⟩
  · simp only [reshape]
    exact chunkify_flatten n data.flatten
  · rw [← List.length_flatten, ← List.length_flatten]
    simp only [reshape]
    rw [chunkify_flatten n data.flatten]
  · simp only [reshape]
    exact chunkify_sizes n data.flatten.length data.flatten le_rfl
  · simp only [reshape]
    exact chunkify_dropLast n data.flatten.length data.flatten le_rfl

/-- C4 witness: two cycles of two frames regrouped with `groupSize = 3` keep
all four frames, as groups of sizes 3 and 1. -/
theorem C4_reshape_witness :
    (0 < 3 ∧ (reshape 3 [[1, 2], [3, 4]] : List (List Nat)).flatten = [1, 2, 3, 4])
    ∧ reshape 3 ([[1, 2], [3, 4]] : List (List Nat)) = [[1, 2, 3], [4]] := by
  refine ⟨⟨by decide, ?_⟩, ?_⟩
  · rw [(C4_reshape_conservation 3 (by decide) [[1, 2], [3, 4]]).1]
    decide
  · simp [reshape, chunkify]

/-- C3: for every frame table whose cycles all have the same positive frame
count (rectangular data; the data model's cycles are non-empty), applying the
`transpose` pre-command twice restores the original table. -/
theorem C3_transpose_involution {α : Type _} (k : Nat) (hk : 0 < k) (data : List (List α))
    (h : ∀ c ∈ data, c.length = k) : transpose (transpose data) = data := by
  cases data with
  | nil => rfl
  | cons c rest =>
    have hD : c :: rest ≠ [] := by simp
    have hmin : minLen (c :: rest) = k := minLen_uniform _ k hD h
    have hsome : ∀ i, i < k → ∀ l ∈ c :: rest, (l[i]?).isSome := by
      intro i hik l hl
      have := h l hl
      simp [List.getElem?_eq_getElem (show i < l.length by omega)]
    have hT : transpose (c :: rest)
        = (List.range k).map (fun i => (c :: rest).filterMap (fun l => l[i]?)) := by
      simp [transpose, pyZip, hmin]
    have hrowlen : ∀ row ∈ transpose (c :: rest), row.length = (c :: rest).length := by
      rw [hT]
      intro row hrow
      obtain ⟨i, hi, rfl⟩ := List.mem_map.mp hrow
      exact filterMap_length_all_some _ _ (hsome i (List.mem_range.mp hi))
    have hTne : transpose (c :: rest) ≠ [] := by
      have : (transpose (c :: rest)).length = k := by rw [hT]; simp
      intro hnil
      rw [hnil] at this
      simp at this
      omega
    have hmin2 : minLen (transpose (c :: rest)) = (c :: rest).length :=
      minLen_uniform _ _ hTne hrowlen
    have hTT : transpose (transpose (c :: rest)) = (List.range (c :: rest).length).map
        (fun j => (transpose (c :: rest)).filterMap (fun row => row[j]?)) := by
      conv_lhs => rw [show transpose (transpose (c :: rest))
        = (List.range (minLen (transpose (c :: rest)))).map
          (fun j => (transpose (c :: rest)).filterMap (fun row => row[j]?)) from rfl]
      rw [hmin2]
    apply List.ext_getElem?
    intro j
    by_cases hj : j < (c :: rest).length
    · rw [hTT, List.getElem?_map, List.getElem?_range hj]
      simp only [Option.map_some']
      rw [List.getElem?_eq_getElem hj]
      congr 1
      rw [hT, List.filterMap_map]
      have hstep : ∀ i ∈ List.range k,
          (((fun row => row[j]?) ∘ fun i => (c :: rest).filterMap (fun l => l[i]?)) i)
            = ((c :: rest).get (Fin.mk j hj))[i]? := by
        intro i hi
        have hik : i < k := List.mem_range.mp hi
        simp only [Function.comp]
        rw [filterMap_getElem?_all_some _ _ (hsome i hik) j, List.getElem?_eq_getElem hj]
        simp
      rw [filterMap_congr_mem _ _ _ hstep]
      have hlen : ((c :: rest).get (Fin.mk j hj)).length = k :=
        h _ (List.get_mem (c :: rest) j hj)
      rw [← hlen]
      exact range_filterMap_getElem? _
    · have hlen2 : (transpose (transpose (c :: rest))).length = (c :: rest).length := by
        rw [hTT]
        simp
      rw [List.getElem?_eq_none (by omega), List.getElem?_eq_none (by omega)]

/-- C3 witness: a concrete 2 by 2 rectangular table is restored by a double
transpose. -/
theorem C3_transpose_witness :
    (0 < 2 ∧ ∀ c ∈ ([[1, 2], [3, 4]] : List (List Nat)), c.length = 2)
    ∧ transpose (transpose ([[1, 2], [3, 4]] : List (List Nat))) = [[1, 2], [3, 4]] :=
  ⟨⟨by decide, by decide⟩, C3_transpose_involution 2 (by decide) _ (by decide)⟩

/-! Runner and pipeline lemmas. -/

theorem succ_mod_eq (n L : Nat) : (n + 1) % L = (n % L + 1) % L := by
  conv_lhs => rw [← Nat.div_add_mod n L]
  rw [Nat.add_assoc, Nat.mul_add_mod]

theorem ordered_run_eq {α : Type _} (data : List α) (hne : data ≠ []) (n : Nat) :
    ordered_run data n
      = some (data.get (Fin.mk (n % data.length) (Nat.mod_lt n (List.length_pos.mpr hne))),
              data.drop (n % data.length + 1)) := by
  have hL : 0 < data.length := List.length_pos.mpr hne
  induction n with
  | zero =>
    cases data with
    | nil => exact absurd rfl hne
    | cons a rest => simp [ordered_run, ordered_next]
  | succ n ih =>
    simp only [ordered_run]
    rw [ih]
    simp only [Option.some_bind]
    by_cases hcase : n % data.length + 1 = data.length
    · have he : (n + 1) % data.length = 0 := by
        rw [succ_mod_eq n data.length, hcase, Nat.mod_self]
      rw [hcase, List.drop_length]
      simp only [he]
      cases data with
      | nil => exact absurd rfl hne
      | cons a rest => simp [ordered_next]
    · have hlt : n % data.length + 1 < data.length :=
        lt_of_le_of_ne (Nat.succ_le_of_lt (Nat.mod_lt n hL)) hcase
      have he : (n + 1) % data.length = n % data.length + 1 := by
        rw [succ_mod_eq n data.length, Nat.mod_eq_of_lt hlt]
      rw [List.drop_eq_getElem_cons hlt]
      simp [he, ordered_next, List.get_eq_getElem]

/-- C2: a compiled Spec with no scheduled post-tagged command has
`randomize = false`, and any runner in that (sequential) mode yields on its
`n`-th invocation exactly the frames of cycle `n mod cycleCount`, in frame
order, regardless of the entropy stream. -/
theorem C2_sequential_runner :
    (∀ (fix_cells strip_marks : Frame → Frame) (gen : Data) (natural : Nat) (spec : Spec),
        spinner_compiler fix_cells strip_marks gen natural [] = .ok spec →
          spec.randomize = false)
    ∧ ∀ (rn : Runner) (r : Nat → Nat) (n : Nat), rn.spec.randomize = false →
        rn.spec.data ≠ [] →
        runner_invoke rn r n = rn.spec.data[n % rn.spec.data.length]? := by
  constructor
  · intro fc sm gen natural spec h
    simp only [spinner_compiler, apply_randomize_commands] at h
    split at h
    · exact Except.noConfusion h
    · exact Except.noConfusion h
    · split at h
      · injection h with h2
        rw [← h2]
      · exact Except.noConfusion h
  · intro rn r n hrand hne
    simp only [runner_invoke, hrand]
    rw [if_neg (by simp), ordered_run_eq rn.spec.data hne n]
    simp [List.getElem?_eq_getElem (Nat.mod_lt n (List.length_pos.mpr hne))]

/-- C2 witness: a sequential runner over three cycles yields cycles
`0, 1, 2, 0` on four consecutive invocations. -/
theorem C2_sequential_witness :
    runner_invoke (Runner.mk (Spec.mk [[[['a']]], [[['b']]], [[['c']]]] 1 false 3 1 [1, 1, 1] 3)) (fun _ => 0) 0
      = some [[['a']]]
    ∧ runner_invoke (Runner.mk (Spec.mk [[[['a']]], [[['b']]], [[['c']]]] 1 false 3 1 [1, 1, 1] 3)) (fun _ => 0) 1
      = some [[['b']]]
    ∧ runner_invoke (Runner.mk (Spec.mk [[[['a']]], [[['b']]], [[['c']]]] 1 false 3 1 [1, 1, 1] 3)) (fun _ => 0) 2
      = some [[['c']]]
    ∧ runner_invoke (Runner.mk (Spec.mk [[[['a']]], [[['b']]], [[['c']]]] 1 false 3 1 [1, 1, 1] 3)) (fun _ => 0) 3
      = some [[['a']]] := by
  refine ⟨?_, ?_, ?_, ?_⟩ <;>
    exact (C2_sequential_runner.2 _ (fun _ => 0) _ rfl (by decide)).trans (by decide)

/-- C7: every invocation of a runner in randomized mode yields exactly the
frames of one cycle of its spec (the selected index lies in
`[0, cycleCount)`), and the selection depends only on the entropy drawn at
that invocation — with replacement and no memory of past selections. -/
theorem C7_randomized_runner (rn : Runner) (r : Nat → Nat) (n : Nat)
    (hrand : rn.spec.randomize = true) (hne : rn.spec.data ≠ []) :
    (∃ i, i < rn.spec.data.length ∧ runner_invoke rn r n = rn.spec.data[i]?)
    ∧ ∀ r' : Nat → Nat, r' n = r n → runner_invoke rn r' n = runner_invoke rn r n := by
  constructor
  · exact ⟨r n % rn.spec.data.length, Nat.mod_lt _ (List.length_pos.mpr hne),
      by simp [runner_invoke, hrand, random_cycle_data]⟩
  · intro r' hr
    simp [runner_invoke, hrand, random_cycle_data, hr]

/-- C7 witness: a concrete randomized runner over three cycles yields a cycle
of its spec, and two entropy streams that agree at an invocation yield the
same cycle there. -/
theorem C7_randomized_witness :
    (∃ i, i < 3 ∧ runner_invoke (Runner.mk (Spec.mk [[[['a']]], [[['b']]], [[['c']]]] 1 true 3 1 [1, 1, 1] 3)) (fun _ => 7) 0
      = ([[[['a']]], [[['b']]], [[['c']]]] : Data)[i]?)
    ∧ runner_invoke (Runner.mk (Spec.mk [[[['a']]], [[['b']]], [[['c']]]] 1 true 3 1 [1, 1, 1] 3)) (fun _ => 7) 5
      = runner_invoke (Runner.mk (Spec.mk [[[['a']]], [[['b']]], [[['c']]]] 1 true 3 1 [1, 1, 1] 3)) (fun k => if k = 5 then 7 else 0) 5 :=
  ⟨(C7_randomized_runner (Runner.mk (Spec.mk [[[['a']]], [[['b']]], [[['c']]]] 1 true 3 1 [1, 1, 1] 3))
      (fun _ => 7) 0 rfl (by decide)).1,
   (C7_randomized_runner (Runner.mk (Spec.mk [[[['a']]], [[['b']]], [[['c']]]] 1 true 3 1 [1, 1, 1] 3))
      (fun k => if k = 5 then 7 else 0) 5 rfl (by decide)).2 (fun _ => 7) (by decide)⟩

/-- C9: when the raw frame source yields zero cycles, compilation fails with
the ordinary `IndexError` from `len(spec.data[0][0])` while deriving the
`length` metadata — never with the specification (width) error, so no frame
dump is produced; and `reshape` turns a table whose flattening is empty into
zero cycles. -/
theorem C9_empty_data_compile :
    (∀ (fix_cells strip_marks : Frame → Frame) (natural : Nat),
        spinner_compiler fix_cells strip_marks [] natural [] = .error .indexError
        ∧ ∀ dump msg,
            spinner_compiler fix_cells strip_marks [] natural [] ≠ .error (.specMismatch dump msg))
    ∧ ∀ (k : Nat) (d : Data), d.flatten = [] → reshape k d = [] := by
  constructor
  · intro fc sm natural
    constructor
    · rfl
    · intro dump msg h
      rw [show spinner_compiler fc sm [] natural [] = .error .indexError from rfl] at h
      simp at h
  · intro k d hd
    simp only [reshape, hd]
    cases k <;> simp [chunkify]

/-- C9 witness: compiling an empty cycle table raises the indexing error, and
reshaping a table of empty cycles yields zero cycles. -/
theorem C9_empty_data_witness :
    spinner_compiler id id [] 0 [] = .error .indexError
    ∧ reshape 2 ([[], []] : Data) = [] :=
  ⟨(C9_empty_data_compile.1 id id 0).1,
   C9_empty_data_compile.2 2 [[], []] (by decide)⟩

/-- C1 code-bug evaluation: the compiler's width check runs before the
scheduled `replace` pre-command, because the dispatcher hands the compiler the
True-tagged commands while `pre_compiler_command = extra_command(False)` tags
the data commands False (source lines 37-38 versus 99).  A width-breaking
replace therefore slips past the check: the pipeline returns a runner whose
frames have cell counts 2 and 1 against a stale `length` of 1, and no
specification error is ever raised. -/
theorem C1_width_code_bug :
    compiler_dispatcher id id (fun s => s.map (fun ch => [ch])) (fun f => f.flatten)
        1 [[[['-']], [['x']]]] [PreCmd.replaceC ['-'] ['-', '-']] []
      = .ok (Runner.mk (Spec.mk [[[['-'], ['-']], [['x']]]] 1 false 1 1 [2] 2))
    ∧ ¬ ∀ f ∈ ([[[['-'], ['-']], [['x']]]] : Data).flatten, f.length = 1 :=
  ⟨rfl, by decide⟩

/-- C6 code-bug evaluation: `randomize` is the True-tagged command, so it runs
inside the compiler (source line 190) before the `cycles` metadata exists:
with its default argument the `or spec.cycles` fallback raises
`AttributeError`, and a positive override is clobbered by the metadata update
at line 194, leaving the reported cycle count equal to the actual count. -/
theorem C6_randomize_code_bug :
    spinner_compiler id id [[[['a']]], [[['b']]]] 7 [none] = .error .attributeError
    ∧ ∃ spec : Spec,
        spinner_compiler id id [[[['a']]], [[['b']]]] 7 [some 5] = .ok spec
        ∧ spec.randomize = true ∧ spec.cycles = 2 ∧ spec.cycles ≠ 5
        ∧ spec.data = [[[['a']]], [[['b']]]] := by
  refine ⟨rfl, ⟨[[[['a']]], [[['b']]]], 7, true, 2, 1, [1, 1], 2⟩, rfl, rfl, rfl,
    by decide, rfl⟩

/-- C8: scheduling a command validates its arguments against the command's
declared signature (the implicit leading spec parameter excluded) at the
scheduling call itself — a mismatch yields the binding error immediately and
nothing is compiled — and a successful call returns a new builder with the
record appended to the list keyed by the command's registered tag, the other
list untouched. -/
theorem C8_schedule_binding (ctrl : Controller) (c : CmdName) (nargs : Nat) (kwargs : List String) :
    (bind_ok (cmd_sig c) nargs kwargs = false →
      schedule_command ctrl c nargs kwargs = .error .typeError)
    ∧ (bind_ok (cmd_sig c) nargs kwargs = true →
      (cmd_tag c = true →
        schedule_command ctrl c nargs kwargs
          = .ok { ctrl with post_scheduled := ctrl.post_scheduled ++ [(c, nargs, kwargs)] })
      ∧ (cmd_tag c = false →
        schedule_command ctrl c nargs kwargs
          = .ok { ctrl with pre_scheduled := ctrl.pre_scheduled ++ [(c, nargs, kwargs)] })) := by
  constructor
  · intro h
    simp [schedule_command, h]
  · intro h
    constructor <;> intro ht <;> simp [schedule_command, h, ht]

/-- C8 witness: `replace` with its two required arguments schedules onto the
pre list, `randomize` with the `cycles` keyword schedules onto the post list,
and `replace` with a missing argument fails at the scheduling call. -/
theorem C8_schedule_witness :
    schedule_command ⟨[], []⟩ .replaceC 2 [] = .ok ⟨[(.replaceC, 2, [])], []⟩
    ∧ schedule_command ⟨[], []⟩ .randomizeC 0 ["cycles"] = .ok ⟨[], [(.randomizeC, 0, ["cycles"])]⟩
    ∧ schedule_command ⟨[], []⟩ .replaceC 1 [] = .error .typeError :=
  ⟨((C8_schedule_binding ⟨[], []⟩ .replaceC 2 []).2 (by decide)).2 (by decide),
   ((C8_schedule_binding ⟨[], []⟩ .randomizeC 0 ["cycles"]).2 (by decide)).1 (by decide),
   (C8_schedule_binding ⟨[], []⟩ .replaceC 1 []).1 (by decide)⟩
